import Mathlib

/-
Verification development for the BanglaAiLaw vector retrieval engine
(src/backend/vector_store.py, src/backend/embeddings.py,
src/backend/retriever.py).

Shallow embedding conventions:
* Python floats are modelled as exact rationals (ℚ); none of the verified
  properties depend on rounding of binary floating point.
* numpy arrays of embedding vectors are lists of lists of ℚ.
* Python dicts are modelled as insertion-ordered association lists, the
  same observable structure a CPython dict exposes (first occurrence wins
  on lookup, value assignment updates in place, new keys append).
* faiss.IndexFlatIP is modelled as the exact structure it maintains: a
  dimension and the ordered list of stored vectors; `search` is exact
  dense inner-product top-k.
* `faiss.normalize_L2` rescales each vector in place to unit L2 norm, a
  real-valued (square-root) operation that rationals cannot express.  It
  is modelled as the identity on each vector; it preserves the number and
  order of vectors, which is the only property the verified claims use
  (counts, set/ordering structure, merge logic - never vector magnitude).
* Exception control flow becomes Except / Option: a raised exception that
  propagates is `Except.error`, a swallowed one follows the exact handler
  in the source (e.g. `similarity_search` returns [] from its blanket
  `except`).
-/

namespace BanglaLaw

/-- Scalar metadata values (the spec's data model restricts metadata to
scalar/string values; `_matches_filter` dispatches on list-ness of the
predicate value, which gets its own type below). -/
inductive Val where
  | str (s : String)
  | int (n : Int)
deriving DecidableEq, Repr

/-- Value of one filter-predicate entry: a scalar (equality test) or a
list (membership test), mirroring the `isinstance(value, list)` dispatch
in `_matches_filter`. -/
inductive FilterVal where
  | scalar (v : Val)
  | vlist (vs : List Val)
deriving DecidableEq, Repr

/-- Metadata mapping: insertion-ordered association list, modelling a
Python dict with string keys and scalar values. -/
abbrev Metadata := List (String × Val)

/-- Filter predicate mapping, as passed to `_matches_filter`. -/
abbrev Filter := List (String × FilterVal)

/-- Embedding vector (numpy 1-d float array) as a list of rationals. -/
abbrev Vec := List ℚ

/-- langchain `Document`: page content plus a metadata dict. -/
structure Document where
  pageContent : String
  metadata : Metadata
deriving DecidableEq, Repr

/-- Dict lookup `m[k]` / `k in m`: first occurrence wins. -/
def lookupKey {β : Type} (k : String) : List (String × β) → Option β
  | [] => none
  | p :: rest => if p.1 = k then some p.2 else lookupKey k rest

/-- Dict assignment `m[k] = v`: update the first occurrence in place,
otherwise append (CPython dict semantics). -/
def upsertKey {β : Type} (m : List (String × β)) (k : String) (v : β) :
    List (String × β) :=
  match m with
  | [] => [(k, v)]
  | p :: rest => if p.1 = k then (k, v) :: rest else p :: upsertKey rest k v

/-- Model of `BanglaLegalVectorStore._matches_filter` (vector_store.py
lines 320-331): every filter key must be present in the metadata and its
value must equal the filter value (scalar) or be a member of it (list). -/
def matchesFilter (metadata : Metadata) (filter : Filter) : Bool :=
  filter.all (fun p =>
    match lookupKey p.1 metadata with
    | none => false
    | some mv =>
      match p.2 with
      | .scalar w => decide (mv = w)
      | .vlist ws => decide (mv ∈ ws))

/-- Model of Python `str.count(pat)` for nonempty `pat` on the character
list of the string: counts non-overlapping occurrences scanning left to
right; after a match the scan skips the remaining `pat.length - 1`
characters of the match (tracked by the cooldown argument so the
recursion stays structural).  (Python's `""`-pattern corner case never
arises: every pattern used by the code comes from `str.split()`, whose
tokens are nonempty, or is a nonempty keyword literal.) -/
def countAux (pat : List Char) : List Char → Nat → Nat
  | [], _ => 0
  | c :: rest, 0 =>
    if pat ≠ [] ∧ pat.isPrefixOf (c :: rest) then
      countAux pat rest (pat.length - 1) + 1
    else
      countAux pat rest 0
  | _ :: rest, n + 1 => countAux pat rest n

/-- Python `content.count(word)`. -/
def countOccur (content pat : String) : Nat :=
  countAux pat.toList content.toList 0

/-- Python `word in content` (substring containment, nonempty `word`). -/
def containsSub (content pat : String) : Bool :=
  decide (0 < countOccur content pat)

/-- Python `str.lower()` character by character.  Lean's `Char.toLower`
maps the ASCII range exactly as Python does; the only non-ASCII
characters appearing in the modelled code are Bengali, which have no
case in either language. -/
def lowerStr (s : String) : String := ⟨s.toList.map Char.toLower⟩

/-- Whitespace-splitting scan behind `tokenize`, accumulating the
current (reversed) token. -/
def tokensAux : List Char → List Char → List String
  | [], cur => if cur.isEmpty then [] else [⟨cur.reverse⟩]
  | c :: rest, cur =>
    if c.isWhitespace then
      if cur.isEmpty then tokensAux rest []
      else (⟨cur.reverse⟩ : String) :: tokensAux rest []
    else tokensAux rest (c :: cur)

/-- Python `s.split()`: split on whitespace, dropping empty tokens. -/
def tokenize (s : String) : List String := tokensAux s.toList []

/-- Errors raised by the modelled code paths (Python exception classes
that actually propagate out of the translated functions). -/
inductive VSError where
  | noIndexLoaded
  | noDocuments
  | failedEmbeddings
  | dimMismatch
  | embeddingError
deriving DecidableEq, Repr

/-- Model of `faiss.IndexFlatIP`: the dimension `d` it was constructed
with and the ordered list of stored vectors; `ntotal` is the count. -/
structure FaissIndex where
  d : Nat
  vecs : List Vec
deriving DecidableEq, Repr

def FaissIndex.ntotal (idx : FaissIndex) : Nat := idx.vecs.length

/-- In-memory state of `BanglaLegalVectorStore`: `faiss_index`,
`documents`, `metadata_list`, `embeddings_array`.  (The langchain
wrapper `vector_store` attribute and the filesystem paths carry no
behaviour relevant to the verified claims and are not part of the
state.) -/
structure VectorStore where
  faiss : Option FaissIndex
  documents : List Document
  metadataList : List Metadata
  embeddingsArray : Option (List Vec)
deriving DecidableEq, Repr

def storeNtotal (s : VectorStore) : Nat :=
  match s.faiss with
  | none => 0
  | some idx => idx.ntotal

/-- Descending order by a rational-valued key. -/
def descBy {α : Type} (f : α → ℚ) (a b : α) : Prop := f b ≤ f a

instance {α : Type} (f : α → ℚ) : IsTotal α (descBy f) :=
  ⟨fun a b => le_total (f b) (f a)⟩

instance {α : Type} (f : α → ℚ) : IsTrans α (descBy f) :=
  ⟨fun _ _ _ h1 h2 => le_trans h2 h1⟩

instance {α : Type} (f : α → ℚ) : DecidableRel (descBy f) :=
  fun a b => (inferInstance : Decidable (f b ≤ f a))

/-- Inner product of two vectors. -/
def dot (a b : Vec) : ℚ := (List.zipWith (· * ·) a b).sum

/-- Model of `faiss_index.search(query_vector, sk)` on an `IndexFlatIP`:
exact dense search returning the `sk` best `(score, index)` pairs in
descending inner-product order.  `sk ≤ ntotal` at every call site
(`search_k = min(k*3, ntotal)`), so no `-1` padding entries arise; the
source's `if idx == -1: continue` guard is therefore vacuous and the
model uses Nat indices. -/
def faissSearch (idx : FaissIndex) (q : Vec) (sk : Nat) : List (ℚ × Nat) :=
  (List.insertionSort (descBy Prod.fst)
    (idx.vecs.enum.map (fun p => (dot q p.2, p.1)))).take sk

/-- Python truthiness test `if score_threshold and score < score_threshold`
(vector_store.py line 154): `None` and `0.0` are both falsy, so a zero
threshold disables filtering exactly like an absent one. -/
def threshTruthy (threshold : Option ℚ) (score : ℚ) : Bool :=
  match threshold with
  | none => false
  | some t => decide (t ≠ 0) && decide (score < t)

/-- Python truthiness test `if filter_metadata: if not
self._matches_filter(...)` — an empty dict is falsy, so it never
rejects. -/
def filterRejects (filter : Option Filter) (md : Metadata) : Bool :=
  match filter with
  | none => false
  | some f => if f.isEmpty then false else ! matchesFilter md f

/-- The result-collection loop of `similarity_search` (vector_store.py
lines 150-167), in the order the source performs the checks: threshold
skip, `self.documents[idx]` lookup (an out-of-range index raises
IndexError, caught by the blanket handler — modelled as `none`),
metadata-filter skip, append, break once `k` results are collected. -/
def searchLoop (docs : List Document) (filter : Option Filter)
    (threshold : Option ℚ) (k : Nat) :
    List (ℚ × Nat) → List (Document × ℚ) → Option (List (Document × ℚ))
  | [], acc => some acc.reverse
  | (score, idx) :: rest, acc =>
    if threshTruthy threshold score then
      searchLoop docs filter threshold k rest acc
    else
      match docs.get? idx with
      | none => none
      | some doc =>
        if filterRejects filter doc.metadata then
          searchLoop docs filter threshold k rest acc
        else
          let acc2 := (doc, score) :: acc
          if k ≤ acc2.length then some acc2.reverse
          else searchLoop docs filter threshold k rest acc2

/-- Model of `BanglaLegalVectorStore.similarity_search` (vector_store.py
lines 122-174).  The query string is represented by its already-computed
embedding `qe` (the call to `embed_query`); `faiss` raises on a query of
the wrong dimension, and the function's blanket `except` turns any
exception raised inside the `try` block into a normal empty-list return,
so both the dimension mismatch and an out-of-range document index yield
`.ok []`.  Only the `faiss_index is None` check, which sits before the
`try`, raises to the caller. -/
def similaritySearch (store : VectorStore) (qe : Vec) (k : Nat)
    (filter : Option Filter) (threshold : Option ℚ) :
    Except VSError (List (Document × ℚ)) :=
  match store.faiss with
  | none => .error .noIndexLoaded
  | some idx =>
    if qe.length ≠ idx.d then .ok []
    else
      let searchK := min (k * 3) idx.ntotal
      let pairs := faissSearch idx qe searchK
      .ok ((searchLoop store.documents filter threshold k pairs []).getD [])

/-- Term-frequency score of one document for the tokenized query
(`_keyword_search` inner loop): raw substring count of each query word in
the lowercased content, divided by the content's token count, summed
over words with positive count. -/
def keywordScore (qWords : List String) (content : String) : ℚ :=
  qWords.foldl (fun acc w =>
    let c := countOccur content w
    if 0 < c then acc + (c : ℚ) / ((tokenize content).length : ℚ) else acc) 0

/-- Model of `BanglaLegalVectorStore._keyword_search` (vector_store.py
lines 288-318): score every stored document that passes the filter, keep
the strictly-positive scores in document order, sort descending, take
`k`. -/
def keywordSearch (store : VectorStore) (query : String) (k : Nat)
    (filter : Option Filter) : List (Document × ℚ) :=
  let words := tokenize (lowerStr query)
  let scored := store.documents.filterMap (fun doc =>
    if filterRejects filter doc.metadata then none
    else
      let score := keywordScore words (lowerStr doc.pageContent)
      if 0 < score then some (doc, score) else none)
  (List.insertionSort (descBy Prod.snd) scored).take k

/-- One entry of the `combined_scores` dict in `hybrid_search`:
document, semantic score, keyword score. -/
abbrev HEntry := Document × ℚ × ℚ

/-- First phase of `hybrid_search`'s combination: insert a semantic
result into the dict (`combined_scores[doc_id] = {doc, score, 0.0}` —
a repeated document overwrites the value but keeps its position). -/
def upsertSem (m : List HEntry) (d : Document) (s : ℚ) : List HEntry :=
  match m with
  | [] => [(d, s, 0)]
  | e :: rest => if e.1 = d then (d, s, 0) :: rest else e :: upsertSem rest d s

/-- Second phase: merge a keyword result into the dict — update the
keyword score of an existing entry, else append with semantic score 0. -/
def upsertKw (m : List HEntry) (d : Document) (s : ℚ) : List HEntry :=
  match m with
  | [] => [(d, 0, s)]
  | e :: rest =>
    if e.1 = d then (e.1, e.2.1, s) :: rest else e :: upsertKw rest d s

/-- The `combined_scores` dict after both loops of `hybrid_search`
(vector_store.py lines 251-272), keyed by document identity. -/
def combineEntries (sem kw : List (Document × ℚ)) : List HEntry :=
  kw.foldl (fun m p => upsertKw m p.1 p.2)
    (sem.foldl (fun m p => upsertSem m p.1 p.2) [])

/-- Score-combination, sort and truncation steps of `hybrid_search`
(vector_store.py lines 274-286): `α·semantic + (1-α)·keyword`, sorted
descending by score (Python's stable sort; `insertionSort` with a ≥
relation is likewise stable), top `k`. -/
def hybridCombine (alpha : ℚ) (k : Nat) (sem kw : List (Document × ℚ)) :
    List (Document × ℚ) :=
  (List.insertionSort (descBy Prod.snd)
    ((combineEntries sem kw).map
      (fun e => (e.1, alpha * e.2.1 + (1 - alpha) * e.2.2)))).take k

/-- Model of `BanglaLegalVectorStore.hybrid_search` (vector_store.py
lines 234-286): request `k*2` candidates from the semantic search (an
exception from it — only the missing-index ValueError — propagates, as
`hybrid_search` has no handler) and `k*2` from the keyword search, then
combine.  Default `alpha` in the source signature is 0.7. -/
def hybridSearch (store : VectorStore) (query : String) (qe : Vec)
    (k : Nat) (alpha : ℚ) (filter : Option Filter) :
    Except VSError (List (Document × ℚ)) :=
  (similaritySearch store qe (k * 2) filter none).map (fun sem =>
    hybridCombine alpha k sem (keywordSearch store query (k * 2) filter))

/-- Embedding cache: content fingerprint to vector (embeddings.py
`self.embedding_cache`). -/
abbrev Cache := List (String × Vec)

/-- Static data of `BanglaLegalEmbeddings`: the fingerprint function
(`_get_cache_key` computes an md5 hexdigest — modelled as an abstract
string function, since no claim depends on hash structure), the
`embedding_type` string and the model `dimension`. -/
structure EmbSvc where
  md5 : String → String
  embeddingType : String
  dimension : Int

/-- Model of `faiss.normalize_L2`: rescales each vector in place to unit
L2 norm.  The rescaling itself is real-valued (square root) and outside
ℚ; it is modelled as the identity on the vector, which preserves exactly
what the verified claims consume — the number, order and dimension of
the vectors. -/
def normalizeL2 (v : Vec) : Vec := v

/-- Metadata enrichment performed per document inside
`embed_documents` (embeddings.py lines 143-149): `metadata.copy()` then
`update` with model name, dimension and text length. -/
def embedMeta (svc : EmbSvc) (d : Document) : Metadata :=
  [(("embedding_model"), Val.str svc.embeddingType),
   (("embedding_dimension"), Val.int svc.dimension),
   (("text_length"), Val.int (d.pageContent.length : Int))].foldl
    (fun acc p => upsertKey acc p.1 p.2) d.metadata

/-- Model of `BanglaLegalEmbeddings.embed_documents` (embeddings.py
lines 112-162).  `embedFn` is `_embed_single_text`, whose failure
(provider error / empty text) is `none`; the per-document `except ...:
continue` skips the document entirely — neither an embedding nor a
metadata entry is appended for it.  Returns the embeddings list, the
metadata list and the updated cache. -/
def embedDocuments (svc : EmbSvc) (embedFn : String → Option Vec)
    (cache : Cache) : List Document → List Vec × List Metadata × Cache
  | [] => ([], [], cache)
  | d :: rest =>
    match lookupKey (svc.md5 d.pageContent) cache with
    | some e =>
      let r := embedDocuments svc embedFn cache rest
      (e :: r.1, embedMeta svc d :: r.2.1, r.2.2)
    | none =>
      match embedFn d.pageContent with
      | some e =>
        let c2 := upsertKey cache (svc.md5 d.pageContent) e
        let r := embedDocuments svc embedFn c2 rest
        (e :: r.1, embedMeta svc d :: r.2.1, r.2.2)
      | none => embedDocuments svc embedFn cache rest

/-- Model of `BanglaLegalEmbeddings.embed_query` (embeddings.py lines
164-184), instrumented with the number of times the compute function was
invoked (0 on a cache hit, 1 on a miss): look up the fingerprint, return
the cached vector, otherwise compute, store and return.  A compute
failure re-raises. -/
def embedQuery (md5 : String → String) (embedFn : String → Option Vec)
    (cache : Cache) (q : String) : Except VSError (Vec × Cache × Nat) :=
  match lookupKey (md5 q) cache with
  | some v => .ok (v, cache, 0)
  | none =>
    match embedFn q with
    | some v => .ok (v, upsertKey cache (md5 q) v, 1)
    | none => .error .embeddingError

/-- Model of `faiss_index.add(array)`: faiss raises on vectors whose
dimension differs from the index dimension (the error propagates through
`add_documents`, whose handler re-raises); otherwise the vectors are
appended in order. -/
def faissAdd (fi : FaissIndex) (vs : List Vec) : Except VSError FaissIndex :=
  if vs.all (fun v => v.length == fi.d) then
    .ok { fi with vecs := fi.vecs ++ vs }
  else .error .dimMismatch

/-- Model of `BanglaLegalVectorStore.create_index` (vector_store.py
lines 47-98) on the path reachable from `add_documents` (no existing
index, `force_recreate` irrelevant): embed, form the array, build an
`IndexFlatIP` of the embedding dimension, normalize and add, store the
full input `documents` list and the (possibly shorter) metadata list. -/
def createIndex (svc : EmbSvc) (embedFn : String → Option Vec)
    (cache : Cache) (store : VectorStore) (docs : List Document) :
    Except VSError VectorStore :=
  if store.faiss.isSome then .ok store
  else if docs.isEmpty then .error .noDocuments
  else
    let r := embedDocuments svc embedFn cache docs
    if r.1.isEmpty then .error .failedEmbeddings
    else
      let arr := r.1.map normalizeL2
      let dim := (arr.headD []).length
      .ok { faiss := some ⟨dim, arr⟩
            documents := docs
            metadataList := r.2.1
            embeddingsArray := some arr }

/-- Model of `BanglaLegalVectorStore.add_documents` (vector_store.py
lines 333-374): empty batch is a no-op; with no index it delegates to
`create_index`; otherwise it embeds the batch and, when at least one
embedding succeeded, adds the new vectors to the faiss index, extends
`self.documents` with the whole input batch, extends `metadata_list`
with the embedding-aligned metadata, and stacks the embeddings array. -/
def addDocuments (svc : EmbSvc) (embedFn : String → Option Vec)
    (cache : Cache) (store : VectorStore) (docs : List Document) :
    Except VSError VectorStore :=
  if docs.isEmpty then .ok store
  else
    match store.faiss with
    | none => createIndex svc embedFn cache store docs
    | some fi =>
      let r := embedDocuments svc embedFn cache docs
      if r.1.isEmpty then .ok store
      else
        let newEmb := r.1.map normalizeL2
        match faissAdd fi newEmb with
        | .error e => .error e
        | .ok fi2 =>
          .ok { store with
                faiss := some fi2
                documents := store.documents ++ docs
                metadataList := store.metadataList ++ r.2.1
                embeddingsArray := some ((store.embeddingsArray.getD []) ++ newEmb) }

/-- On-disk state under the index directory: `index.faiss`,
`documents.pkl`, `metadata.json`, `embeddings.npy` — each either absent
or holding a deserialized value. -/
structure DiskState where
  faissFile : Option FaissIndex
  documentsFile : Option (List Document)
  metadataFile : Option (List Metadata)
  embeddingsFile : Option (List Vec)
deriving DecidableEq, Repr

/-- Model of `BanglaLegalVectorStore.save_index` (vector_store.py lines
376-405): no-op warning when there is no index; otherwise writes the
faiss file, the documents pickle and the metadata json unconditionally,
and the embeddings array only when it is not None (an existing stale
file is left in place in that case). -/
def saveIndex (store : VectorStore) (disk : DiskState) : DiskState :=
  match store.faiss with
  | none => disk
  | some fi =>
    { faissFile := some fi
      documentsFile := some store.documents
      metadataFile := some store.metadataList
      embeddingsFile :=
        match store.embeddingsArray with
        | some a => some a
        | none => disk.embeddingsFile }

/-- Model of `BanglaLegalVectorStore.load_index` (vector_store.py lines
407-441): if `index.faiss` does not exist, report absence (False) and
leave the state untouched; otherwise load the faiss index and then each
of the other three artifacts independently, only when its file exists —
no cross-artifact consistency check of any kind is performed, and the
call reports success (True). -/
def loadIndex (disk : DiskState) (store : VectorStore) : Bool × VectorStore :=
  match disk.faissFile with
  | none => (false, store)
  | some fi =>
    (true,
     { store with
       faiss := some fi
       documents := disk.documentsFile.getD store.documents
       metadataList := disk.metadataFile.getD store.metadataList
       embeddingsArray :=
         match disk.embeddingsFile with
         | some a => some a
         | none => store.embeddingsArray })

/-- Model of `BanglaLegalRetriever.auto_detect_filters` (retriever.py
lines 173-196): category from keyword presence in the lowercased query
(first matching branch wins), language from the script-character ratio
(Bengali block U+0980..U+09FF vs ASCII letters). -/
def autoDetectFilters (query : String) : Filter :=
  let ql := lowerStr query
  let catF : Filter :=
    if containsSub ql ("constitution") || containsSub ql ("সংবিধান") then
      [(("category"), FilterVal.scalar (Val.str ("constitution")))]
    else if containsSub ql ("act") || containsSub ql ("আইন") then
      [(("category"), FilterVal.scalar (Val.str ("legal_acts")))]
    else if containsSub ql ("ordinance") || containsSub ql ("অধ্যাদেশ") then
      [(("category"), FilterVal.scalar (Val.str ("ordinances")))]
    else if containsSub ql ("judgment") || containsSub ql ("রায়") then
      [(("category"), FilterVal.scalar (Val.str ("court_judgments")))]
    else []
  let bengaliChars :=
    (query.toList.filter (fun c =>
      decide (0x980 ≤ c.toNat) && decide (c.toNat ≤ 0x9FF))).length
  let englishChars :=
    (query.toList.filter (fun c =>
      decide (c.toNat ≤ 0x7F) && c.isAlpha)).length
  let langF : Filter :=
    if englishChars * 2 < bengaliChars then
      [(("language"), FilterVal.scalar (Val.str ("bn")))]
    else if bengaliChars * 2 < englishChars then
      [(("language"), FilterVal.scalar (Val.str ("en")))]
    else []
  catF ++ langF

/-- Python dict merge `{**a, **b}`: keys of `a` in their order with `b`'s
value on conflict, then the keys only in `b`, in `b`'s order. -/
def dictMerge (a b : Filter) : Filter :=
  a.map (fun p =>
    match lookupKey p.1 b with
    | some v => (p.1, v)
    | none => p)
  ++ b.filter (fun p => (lookupKey p.1 a).isNone)

/-- The filter-merging fragment of `BanglaLegalRetriever
.retrieve_documents` (retriever.py lines 106-109): auto-detect on the
raw query; when any filter was detected, replace `filter_metadata` by
`{**(filter_metadata or {}), **auto_filters}`. -/
def effectiveFilter (query : String) (filterMetadata : Option Filter) :
    Option Filter :=
  let auto := autoDetectFilters query
  if auto.isEmpty then filterMetadata
  else some (dictMerge (filterMetadata.getD []) auto)

/-- Match of one metadata value against one filter value, the Prop-level
reading of the two branches of `_matches_filter`. -/
def matchVal (v : Val) : FilterVal → Prop
  | .scalar w => v = w
  | .vlist ws => v ∈ ws

/-- First score associated to a document in a scored result list. -/
def lookupDoc (d : Document) : List (Document × ℚ) → Option ℚ
  | [] => none
  | p :: rest => if p.1 = d then some p.2 else lookupDoc d rest

/-- Score of a document in a result list, a missing document scoring 0
(the spec's "treat the missing score as 0"). -/
def kwLook (d : Document) (l : List (Document × ℚ)) : ℚ :=
  (lookupDoc d l).getD 0

/-- Whether a scored result list contains a document. -/
def hasDoc (d : Document) : List (Document × ℚ) → Bool
  | [] => false
  | p :: rest => if p.1 = d then true else hasDoc d rest

/-- Whether the combination dict contains an entry for a document. -/
def hasEntry (d : Document) : List HEntry → Bool
  | [] => false
  | e :: rest => if e.1 = d then true else hasEntry d rest

/-- Spec-side formulation of the hybrid blend, written from the spec's
words for comparison against `hybridCombine` (which is translated from
the source): every semantic result keeps its document and gets score
`α·semantic + (1-α)·lexical-or-0`; every lexical-only result gets
`α·0 + (1-α)·lexical`; the union is sorted descending by score and cut
to `k`. -/
def hybridBlendSpec (alpha : ℚ) (k : Nat) (sem kw : List (Document × ℚ)) :
    List (Document × ℚ) :=
  (List.insertionSort (descBy Prod.snd)
    (sem.map (fun p => (p.1, alpha * p.2 + (1 - alpha) * kwLook p.1 kw))
     ++ (kw.filter (fun p => ! hasDoc p.1 sem)).map
        (fun p => (p.1, alpha * 0 + (1 - alpha) * p.2)))).take k

/-- Concrete documents and states used by the concrete-input theorems. -/
def docA : Document := ⟨"aa", []⟩

def docB : Document := ⟨"bb", []⟩

def docC : Document := ⟨"cc", []⟩

/-- Embedding service with identity fingerprint (concrete instance). -/
def svc0 : EmbSvc := ⟨fun s => s, "huggingface", 1⟩

/-- Embedding provider that fails exactly on the content of `docC`. -/
def embedFail : String → Option Vec := fun s => if s = "cc" then none else some [1]

/-- A store holding one indexed document. -/
def store0 : VectorStore := ⟨some ⟨1, [[1]]⟩, [docA], [[]], some [[1]]⟩

/-- A store whose single stored vector scores -1 against query [1]. -/
def negDoc : Document := ⟨"nn", []⟩

def negStore : VectorStore := ⟨some ⟨1, [[-1]]⟩, [negDoc], [[]], some [[-1]]⟩

/-- A store with a loaded but empty index. -/
def estore : VectorStore := ⟨some ⟨1, []⟩, [], [], none⟩

/-- On-disk state with the vector structure present but the other three
artifacts missing. -/
def disk0 : DiskState := ⟨some ⟨1, [[1]]⟩, none, none, none⟩

/-- A freshly constructed store (all fields at their `__init__` values). -/
def emptyStore : VectorStore := ⟨none, [], [], none⟩

/-- Compute function used by the cache-idempotence concrete instance. -/
def qf0 : String → Option Vec := fun _ => some [2]

/-! Helper lemmas. -/

theorem lookupKey_upsertKey_self {β : Type} (m : List (String × β)) (k : String)
    (v : β) : lookupKey k (upsertKey m k v) = some v := by
  induction m with
  | nil => simp [upsertKey, lookupKey]
  | cons p rest ih =>
    by_cases h : p.1 = k
    · simp [upsertKey, lookupKey, h]
    · simp [upsertKey, lookupKey, h, ih]

theorem matchesFilter_one (md : Metadata) (p : String × FilterVal) :
    (match lookupKey p.1 md with
     | none => false
     | some mv =>
       match p.2 with
       | .scalar w => decide (mv = w)
       | .vlist ws => decide (mv ∈ ws)) = true ↔
      ∃ v, lookupKey p.1 md = some v ∧ matchVal v p.2 := by
  cases h : lookupKey p.1 md with
  | none => simp
  | some mv => cases hv : p.2 <;> simp [matchVal]

theorem searchLoop_zero_threshold (docs : List Document) (f : Option Filter)
    (k : Nat) : ∀ (pairs : List (ℚ × Nat)) (acc : List (Document × ℚ)),
    searchLoop docs f (some 0) k pairs acc = searchLoop docs f none k pairs acc := by
  intro pairs
  induction pairs with
  | nil => intro acc; rfl
  | cons hd tl ih =>
    intro acc
    obtain ⟨score, idx⟩ := hd
    have ht : threshTruthy (some 0) score = threshTruthy none score := by
      simp [threshTruthy]
    simp only [searchLoop, ht, ih]

theorem searchLoop_length_le (docs : List Document) (f : Option Filter)
    (t : Option ℚ) (k : Nat) :
    ∀ (pairs : List (ℚ × Nat)) (acc r : List (Document × ℚ)),
    searchLoop docs f t k pairs acc = some r →
    r.length ≤ acc.length + pairs.length := by
  intro pairs
  induction pairs with
  | nil =>
    intro acc r h
    simp only [searchLoop, Option.some_inj] at h
    simp [← h]
  | cons hd tl ih =>
    intro acc r h
    obtain ⟨score, idx⟩ := hd
    simp only [searchLoop] at h
    by_cases ht : threshTruthy t score
    · simp only [ht, if_true] at h
      have := ih acc r h
      simp only [List.length_cons]
      omega
    · simp only [ht, Bool.false_eq_true, if_false] at h
      cases hg : docs.get? idx with
      | none => rw [hg] at h; exact absurd h (by simp)
      | some doc =>
        rw [hg] at h
        by_cases hf : filterRejects f doc.metadata
        · simp only [hf, if_true] at h
          have := ih acc r h
          simp only [List.length_cons]
          omega
        · simp only [hf, Bool.false_eq_true, if_false] at h
          by_cases hk : k ≤ ((doc, score) :: acc).length
          · simp only [hk, if_true, Option.some_inj] at h
            subst h
            simp only [List.length_reverse, List.length_cons]
            omega
          · simp only [hk, if_false] at h
            have := ih ((doc, score) :: acc) r h
            simp only [List.length_cons] at this ⊢
            omega

/-! Claim theorems. -/

/-- C9: `_matches_filter` returns true iff every filter key is present in
the metadata with a value equal to the filter value, or a member of it
when the filter value is a list; a missing key fails the match
(closed world) and the empty filter matches everything. -/
theorem matchesFilter_closed_world (md : Metadata) (f : Filter) :
    (matchesFilter md f = true ↔
      ∀ p ∈ f, ∃ v, lookupKey p.1 md = some v ∧ matchVal v p.2) ∧
    matchesFilter md [] = true := by
  constructor
  · rw [matchesFilter, List.all_eq_true]
    constructor
    · intro h p hp
      exact (matchesFilter_one md p).mp (h p hp)
    · intro h p hp
      exact (matchesFilter_one md p).mpr (h p hp)
  · rfl

/-- C10: passing `score_threshold = 0.0` to `similarity_search` behaves
identically to passing no threshold at all, because the source tests the
threshold for truthiness (`if score_threshold and ...`) and `0.0` is
falsy; in particular candidates with negative similarity scores are
retained, as the concrete run shows. -/
theorem similaritySearch_zero_threshold_noop :
    (∀ (store : VectorStore) (qe : Vec) (k : Nat) (f : Option Filter),
      similaritySearch store qe k f (some 0) = similaritySearch store qe k f none) ∧
    similaritySearch negStore [1] 1 none (some 0) =
      Except.ok [(negDoc, -1)] ∧
    (-1 : ℚ) < 0 := by
  refine ⟨?_, ?_, by norm_num⟩
  swap
  · norm_num [similaritySearch, negStore, faissSearch, dot, searchLoop,
      threshTruthy, filterRejects, FaissIndex.ntotal, List.insertionSort,
      List.orderedInsert, descBy]
  intro store qe k f
  unfold similaritySearch
  cases store.faiss with
  | none => rfl
  | some idx =>
    by_cases h : qe.length ≠ idx.d
    · simp [h]
    · simp only [h, if_false]
      rw [searchLoop_zero_threshold]

/-- C8: calling `embed_query` a second time with the same text returns
the vector stored by the first call without invoking the compute
function again — at most one invocation happens across the two calls,
and both calls return the same vector. -/
theorem embedQuery_cache_idempotent (h : String → String)
    (f : String → Option Vec) (c : Cache) (q : String) (v1 : Vec)
    (c1 : Cache) (n1 : Nat)
    (hfirst : embedQuery h f c q = Except.ok (v1, c1, n1)) :
    embedQuery h f c1 q = Except.ok (v1, c1, 0) ∧ n1 ≤ 1 := by
  unfold embedQuery at hfirst ⊢
  cases hc : lookupKey (h q) c with
  | some v =>
    rw [hc] at hfirst
    simp only [Except.ok.injEq, Prod.mk.injEq] at hfirst
    obtain ⟨hv, hcc, hn⟩ := hfirst
    subst hv; subst hcc; subst hn
    simp [hc]
  | none =>
    rw [hc] at hfirst
    cases hf : f q with
    | none => rw [hf] at hfirst; exact absurd hfirst (by simp)
    | some v =>
      rw [hf] at hfirst
      simp only [Except.ok.injEq, Prod.mk.injEq] at hfirst
      obtain ⟨hv, hcc, hn⟩ := hfirst
      subst hv; subst hcc; subst hn
      simp [lookupKey_upsertKey_self]

/-- Witness for C8 at a concrete input: the cache produced by a first
call on text "t" satisfies the idempotence conclusion. -/
theorem embedQuery_cache_idempotent_witness :
    embedQuery (fun s => s) qf0 [(("t"), [2])] ("t") =
      Except.ok ([2], [(("t"), [2])], 0) ∧ 1 ≤ 1 :=
  embedQuery_cache_idempotent (fun s => s) qf0 [] ("t") [2] [(("t"), [2])] 1 rfl

/-- C1 (code bug): `add_documents` on a batch of two documents where the
second one's embedding fails adds one vector to the index but extends
the documents list with both documents, leaving the faiss count at 2,
the documents list at 3 and the metadata list at 2 — the three parallel
sequences no longer have equal length after the successful call. -/
theorem addDocuments_failed_embedding_breaks_parallel_lengths :
    (addDocuments svc0 embedFail [] store0 [docB, docC]).map
      (fun s => (storeNtotal s, s.documents.length, s.metadataList.length)) =
      Except.ok (2, 3, 2) ∧ (3 : Nat) ≠ 2 := by
  exact ⟨rfl, by decide⟩

/-- C2 (counterexample): an on-disk state whose vector structure exists
but whose documents, metadata and embeddings files are all missing loads
with success (True) and no error of any kind, yielding an index whose
vector count is 1 while its documents list is empty — the claimed
`CorruptStateError` never occurs. -/
theorem loadIndex_missing_artifact_no_error :
    (loadIndex disk0 emptyStore).1 = true ∧
    storeNtotal (loadIndex disk0 emptyStore).2 = 1 ∧
    (loadIndex disk0 emptyStore).2.documents.length = 0 ∧
    (1 : Nat) ≠ 0 := by
  exact ⟨rfl, rfl, rfl, by decide⟩

/-- C2 (amended): `load_index` reports absence (False, state unchanged)
when the vector-structure file does not exist; when it does exist, the
call always reports success (True), loading each of the other three
artifacts only if its own file is present and silently keeping the
previous in-memory value otherwise — no consistency validation is
performed. -/
theorem loadIndex_characterization (disk : DiskState) (store : VectorStore) :
    (disk.faissFile = none → loadIndex disk store = (false, store)) ∧
    (∀ fi, disk.faissFile = some fi →
      loadIndex disk store =
        (true,
         { store with
           faiss := some fi
           documents := disk.documentsFile.getD store.documents
           metadataList := disk.metadataFile.getD store.metadataList
           embeddingsArray :=
             match disk.embeddingsFile with
             | some a => some a
             | none => store.embeddingsArray })) := by
  constructor
  · intro h
    simp [loadIndex, h]
  · intro fi h
    simp [loadIndex, h]

/-- Witness for C2's amended claim at the concrete corrupt disk state. -/
theorem loadIndex_characterization_witness :
    loadIndex disk0 emptyStore = (true, ⟨some ⟨1, [[1]]⟩, [], [], none⟩) :=
  (loadIndex_characterization disk0 emptyStore).2 ⟨1, [[1]]⟩ rfl

/-- C3 (counterexample): searching a loaded one-vector index of
dimension 1 with a query embedding of dimension 2 returns the ordinary
empty result `.ok []` and never an error — the dimension mismatch is
swallowed by the blanket `except` handler of `similarity_search`. -/
theorem similaritySearch_dim_mismatch_not_error :
    similaritySearch negStore [1, 2] 1 none none = Except.ok [] ∧
    ∀ e : VSError, similaritySearch negStore [1, 2] 1 none none ≠ Except.error e := by
  refine ⟨rfl, ?_⟩
  intro e h
  rw [show similaritySearch negStore [1, 2] 1 none none = Except.ok [] from rfl] at h
  exact Except.noConfusion h

/-- C3 (amended): for every loaded index, a query embedding whose
dimension differs from the index dimension makes `similarity_search`
return the empty list as a normal result, indistinguishable from a
query with no matches; the error raised inside the `try` block is
caught and downgraded. -/
theorem similaritySearch_dim_mismatch_swallowed (store : VectorStore)
    (idx : FaissIndex) (qe : Vec) (k : Nat) (f : Option Filter)
    (t : Option ℚ) (hidx : store.faiss = some idx)
    (hdim : qe.length ≠ idx.d) :
    similaritySearch store qe k f t = Except.ok [] := by
  simp [similaritySearch, hidx, hdim]

/-- Witness for C3's amended claim at a concrete mismatched query. -/
theorem similaritySearch_dim_mismatch_swallowed_witness :
    similaritySearch negStore [1, 2] 5 none none = Except.ok [] :=
  similaritySearch_dim_mismatch_swallowed negStore ⟨1, [[-1]]⟩ [1, 2] 5 none
    none rfl (by decide)

/-- C7: saving a store that holds an index and loading the result into a
fresh store reports success and reproduces the same faiss index (hence
the same vector count and dimension), the same documents in the same
order, and the same metadata sequence. -/
theorem saveIndex_loadIndex_roundtrip (store : VectorStore)
    (disk : DiskState) (fresh : VectorStore) (fi : FaissIndex)
    (h : store.faiss = some fi) :
    (loadIndex (saveIndex store disk) fresh).1 = true ∧
    (loadIndex (saveIndex store disk) fresh).2.faiss = some fi ∧
    storeNtotal (loadIndex (saveIndex store disk) fresh).2 = storeNtotal store ∧
    (loadIndex (saveIndex store disk) fresh).2.documents = store.documents ∧
    (loadIndex (saveIndex store disk) fresh).2.metadataList = store.metadataList := by
  simp [saveIndex, h, loadIndex, storeNtotal]

/-- Witness for C7 at the concrete one-document store. -/
theorem saveIndex_loadIndex_roundtrip_witness :
    (loadIndex (saveIndex store0 disk0) emptyStore).1 = true ∧
    (loadIndex (saveIndex store0 disk0) emptyStore).2.faiss = some ⟨1, [[1]]⟩ ∧
    storeNtotal (loadIndex (saveIndex store0 disk0) emptyStore).2 = storeNtotal store0 ∧
    (loadIndex (saveIndex store0 disk0) emptyStore).2.documents = store0.documents ∧
    (loadIndex (saveIndex store0 disk0) emptyStore).2.metadataList = store0.metadataList :=
  saveIndex_loadIndex_roundtrip store0 disk0 emptyStore ⟨1, [[1]]⟩ rfl

/-- C5: `similarity_search` on a loaded index with zero stored vectors
returns the empty list, not an error (the search width `min(k*3,
ntotal)` is 0); and for any loaded index the number of returned
(document, score) pairs never exceeds the number of stored vectors — in
particular a `k` larger than the store never produces padding
entries. -/
theorem similaritySearch_empty_and_cap (store : VectorStore)
    (idx : FaissIndex) (qe : Vec) (k : Nat) (f : Option Filter)
    (t : Option ℚ) (hidx : store.faiss = some idx) :
    (idx.vecs = [] → similaritySearch store qe k f t = Except.ok []) ∧
    (∀ r, similaritySearch store qe k f t = Except.ok r →
      r.length ≤ idx.ntotal) := by
  constructor
  · intro hv
    unfold similaritySearch
    rw [hidx]
    by_cases hd : qe.length ≠ idx.d
    · simp [hd]
    · simp only [hd, if_false]
      simp [faissSearch, FaissIndex.ntotal, hv, searchLoop]
  · intro r hr
    unfold similaritySearch at hr
    simp only [hidx] at hr
    by_cases hd : qe.length ≠ idx.d
    · rw [if_pos hd] at hr
      injection hr with h
      subst h
      simp
    · rw [if_neg hd] at hr
      injection hr with hr
      have hp : (faissSearch idx qe (min (k * 3) idx.ntotal)).length ≤
          idx.ntotal := by
        simp only [faissSearch, List.length_take]
        calc min (min (k * 3) idx.ntotal)
              (List.insertionSort (descBy Prod.fst)
                (idx.vecs.enum.map (fun p => (dot qe p.2, p.1)))).length
            ≤ min (k * 3) idx.ntotal := min_le_left _ _
          _ ≤ idx.ntotal := min_le_right _ _
      cases hl : searchLoop store.documents f t k
          (faissSearch idx qe (min (k * 3) idx.ntotal)) [] with
      | none =>
        rw [hl] at hr
        simp only [Option.getD_none] at hr
        subst hr
        simp
      | some r2 =>
        rw [hl] at hr
        simp only [Option.getD_some] at hr
        subst hr
        have := searchLoop_length_le store.documents f t k
          (faissSearch idx qe (min (k * 3) idx.ntotal)) [] r2 hl
        simp only [List.length_nil, Nat.zero_add] at this
        omega

/-- Witness for C5: the concrete empty-index store returns the empty
list, whose length is within the vector count. -/
theorem similaritySearch_empty_and_cap_witness :
    similaritySearch estore [1] 5 none none = Except.ok [] ∧
    ([] : List (Document × ℚ)).length ≤ FaissIndex.ntotal ⟨1, []⟩ :=
  ⟨(similaritySearch_empty_and_cap estore ⟨1, []⟩ [1] 5 none none rfl).1 rfl,
   (similaritySearch_empty_and_cap estore ⟨1, []⟩ [1] 5 none none rfl).2 []
     ((similaritySearch_empty_and_cap estore ⟨1, []⟩ [1] 5 none none rfl).1 rfl)⟩

theorem lookupKey_append_left {β : Type} (k : String) (v : β)
    (xs ys : List (String × β)) (h : lookupKey k xs = some v) :
    lookupKey k (xs ++ ys) = some v := by
  induction xs with
  | nil => simp [lookupKey] at h
  | cons p rest ih =>
    by_cases hp : p.1 = k
    · simp only [lookupKey, hp, if_true] at h
      simp [List.cons_append, lookupKey, hp, h]
    · simp only [lookupKey, hp, if_false] at h
      simp [List.cons_append, lookupKey, hp, ih h]

theorem lookupKey_append_right {β : Type} (k : String)
    (xs ys : List (String × β)) (h : lookupKey k xs = none) :
    lookupKey k (xs ++ ys) = lookupKey k ys := by
  induction xs with
  | nil => simp
  | cons p rest ih =>
    by_cases hp : p.1 = k
    · simp [lookupKey, hp] at h
    · simp only [lookupKey, hp, if_false] at h
      simp [List.cons_append, lookupKey, hp, ih h]

theorem lookupKey_mergeMap_found (a b : Filter) (k : String) (w v : FilterVal)
    (ha : lookupKey k a = some w) (hb : lookupKey k b = some v) :
    lookupKey k (a.map (fun p =>
      match lookupKey p.1 b with
      | some u => (p.1, u)
      | none => p)) = some v := by
  induction a with
  | nil => simp [lookupKey] at ha
  | cons p rest ih =>
    by_cases hp : p.1 = k
    · simp only [List.map_cons]
      rw [hp, hb]
      simp [lookupKey]
    · simp only [lookupKey, hp, if_false] at ha
      simp only [List.map_cons]
      cases hpb : lookupKey p.1 b with
      | some u => simp [hpb, lookupKey, hp, ih ha]
      | none => simp [hpb, lookupKey, hp, ih ha]

theorem lookupKey_mergeMap_none (a b : Filter) (k : String)
    (ha : lookupKey k a = none) :
    lookupKey k (a.map (fun p =>
      match lookupKey p.1 b with
      | some u => (p.1, u)
      | none => p)) = none := by
  induction a with
  | nil => simp [lookupKey]
  | cons p rest ih =>
    by_cases hp : p.1 = k
    · simp [lookupKey, hp] at ha
    · simp only [lookupKey, hp, if_false] at ha
      simp only [List.map_cons]
      cases hpb : lookupKey p.1 b with
      | some u => simp [hpb, lookupKey, hp, ih ha]
      | none => simp [hpb, lookupKey, hp, ih ha]

theorem lookupKey_filter_keep {β : Type} (k : String) (v : β)
    (b : List (String × β)) (pred : String × β → Bool)
    (hpred : ∀ q : String × β, q.1 = k → pred q = true)
    (h : lookupKey k b = some v) :
    lookupKey k (b.filter pred) = some v := by
  induction b with
  | nil => simp [lookupKey] at h
  | cons q rest ih =>
    by_cases hq : q.1 = k
    · simp only [lookupKey, hq, if_true] at h
      rw [List.filter_cons, hpred q hq]
      simp [lookupKey, hq, h]
    · simp only [lookupKey, hq, if_false] at h
      rw [List.filter_cons]
      cases hp : pred q with
      | true => simp only [if_true]; simp [lookupKey, hq, ih h]
      | false => simp only [Bool.false_eq_true, if_false]; exact ih h

theorem lookupKey_dictMerge (a b : Filter) (k : String) (v : FilterVal)
    (h : lookupKey k b = some v) :
    lookupKey k (dictMerge a b) = some v := by
  unfold dictMerge
  cases ha : lookupKey k a with
  | some w =>
    exact lookupKey_append_left k v _ _ (lookupKey_mergeMap_found a b k w v ha h)
  | none =>
    rw [lookupKey_append_right k _ _ (lookupKey_mergeMap_none a b k ha)]
    refine lookupKey_filter_keep k v b _ ?_ h
    intro q hq
    rw [hq, ha]
    rfl

/-- C4 (counterexample): for the query "constitution" and the
caller-supplied predicate `{category: legal_acts}`, the merged filter
carries the auto-detected `category = constitution` (plus the detected
`language = en`), not the caller's value — the caller-supplied key does
not take precedence. -/
theorem effectiveFilter_caller_overridden :
    effectiveFilter ("constitution")
        (some [(("category"), FilterVal.scalar (Val.str ("legal_acts")))]) =
      some [(("category"), FilterVal.scalar (Val.str ("constitution"))),
            (("language"), FilterVal.scalar (Val.str ("en")))] ∧
    Option.bind
        (effectiveFilter ("constitution")
          (some [(("category"), FilterVal.scalar (Val.str ("legal_acts")))]))
        (lookupKey ("category")) ≠
      some (FilterVal.scalar (Val.str ("legal_acts"))) := by
  constructor
  · rfl
  · intro h
    rw [show Option.bind
        (effectiveFilter ("constitution")
          (some [(("category"), FilterVal.scalar (Val.str ("legal_acts")))]))
        (lookupKey ("category")) =
        some (FilterVal.scalar (Val.str ("constitution"))) from rfl] at h
    simp at h

/-- C4 (amended): when `retrieve_documents` merges auto-detected
predicates with caller-supplied ones, a key present in both takes its
value from the auto-detected mapping — the merge is
`{**caller, **auto}`, so the auto-detected side wins every conflict. -/
theorem effectiveFilter_auto_precedence (q : String) (f : Option Filter)
    (k : String) (v : FilterVal)
    (h : lookupKey k (autoDetectFilters q) = some v) :
    Option.bind (effectiveFilter q f) (lookupKey k) = some v := by
  have hne : (autoDetectFilters q).isEmpty = false := by
    cases he : autoDetectFilters q with
    | nil => rw [he] at h; simp [lookupKey] at h
    | cons a rest => simp
  unfold effectiveFilter
  simp only [hne, Bool.false_eq_true, if_false, Option.some_bind]
  exact lookupKey_dictMerge (f.getD []) (autoDetectFilters q) k v h

/-- Witness for C4's amended claim: the auto-detected category survives
the merge against a conflicting caller value at a concrete query. -/
theorem effectiveFilter_auto_precedence_witness :
    Option.bind
        (effectiveFilter ("constitution")
          (some [(("category"), FilterVal.scalar (Val.str ("legal_acts")))]))
        (lookupKey ("category")) =
      some (FilterVal.scalar (Val.str ("constitution"))) :=
  effectiveFilter_auto_precedence ("constitution")
    (some [(("category"), FilterVal.scalar (Val.str ("legal_acts")))])
    ("category") (FilterVal.scalar (Val.str ("constitution"))) rfl

theorem hasEntry_iff (d : Document) (m : List HEntry) :
    hasEntry d m = true ↔ d ∈ m.map (fun e => e.1) := by
  induction m with
  | nil => simp [hasEntry]
  | cons e rest ih =>
    by_cases h : e.1 = d
    · simp [hasEntry, h]
    · simp [hasEntry, h, ih, Ne.symm h]

theorem hasDoc_iff (d : Document) (l : List (Document × ℚ)) :
    hasDoc d l = true ↔ d ∈ l.map Prod.fst := by
  induction l with
  | nil => simp [hasDoc]
  | cons p rest ih =>
    by_cases h : p.1 = d
    · simp [hasDoc, h]
    · simp [hasDoc, h, ih, Ne.symm h]

theorem lookupDoc_none (d : Document) (l : List (Document × ℚ))
    (h : d ∉ l.map Prod.fst) : lookupDoc d l = none := by
  induction l with
  | nil => rfl
  | cons p rest ih =>
    simp only [List.map_cons, List.mem_cons, not_or] at h
    simp [lookupDoc, Ne.symm h.1, ih h.2]

theorem upsertSem_not_mem (m : List HEntry) (d : Document) (s : ℚ)
    (h : d ∉ m.map (fun e => e.1)) : upsertSem m d s = m ++ [(d, s, 0)] := by
  induction m with
  | nil => rfl
  | cons e rest ih =>
    simp only [List.map_cons, List.mem_cons, not_or] at h
    simp [upsertSem, Ne.symm h.1, ih h.2]

theorem upsertKw_not_mem (m : List HEntry) (d : Document) (s : ℚ)
    (h : d ∉ m.map (fun e => e.1)) : upsertKw m d s = m ++ [(d, 0, s)] := by
  induction m with
  | nil => rfl
  | cons e rest ih =>
    simp only [List.map_cons, List.mem_cons, not_or] at h
    simp [upsertKw, Ne.symm h.1, ih h.2]

theorem map_upd_id (rest : List HEntry) (d : Document) (s : ℚ)
    (h : ∀ e ∈ rest, e.1 ≠ d) :
    rest.map (fun e => if e.1 = d then (e.1, e.2.1, s) else e) = rest := by
  induction rest with
  | nil => rfl
  | cons e r ih =>
    rw [List.map_cons, if_neg (h e (by simp)), ih (fun e2 he2 => h e2 (by simp [he2]))]

theorem upsertKw_mem (m : List HEntry) (d : Document) (s : ℚ)
    (hnd : (m.map (fun e => e.1)).Nodup) (h : d ∈ m.map (fun e => e.1)) :
    upsertKw m d s = m.map (fun e => if e.1 = d then (e.1, e.2.1, s) else e) := by
  induction m with
  | nil => simp at h
  | cons e rest ih =>
    simp only [List.map_cons, List.nodup_cons] at hnd
    by_cases he : e.1 = d
    · subst he
      have hrest : rest.map (fun e2 => if e2.1 = e.1 then (e2.1, e2.2.1, s) else e2) = rest := by
        apply map_upd_id
        intro e2 he2 heq
        exact hnd.1 (heq ▸ List.mem_map_of_mem _ he2)
      simp [upsertKw, List.map_cons, hrest]
    · simp only [upsertKw, he, if_false, List.map_cons, Bool.false_eq_true]
      have hd : d ∈ rest.map (fun e => e.1) := by
        simp only [List.map_cons, List.mem_cons] at h
        rcases h with h | h
        · exact absurd h.symm he
        · exact h
      rw [ih hnd.2 hd]

theorem foldl_upsertSem (sem : List (Document × ℚ)) :
    ∀ m : List HEntry, (∀ p ∈ sem, p.1 ∉ m.map (fun e => e.1)) →
    (sem.map Prod.fst).Nodup →
    sem.foldl (fun m p => upsertSem m p.1 p.2) m =
      m ++ sem.map (fun p => (p.1, p.2, 0)) := by
  induction sem with
  | nil => intro m _ _; simp
  | cons p rest ih =>
    intro m hdis hnd
    simp only [List.map_cons, List.nodup_cons] at hnd
    simp only [List.foldl_cons]
    rw [upsertSem_not_mem m p.1 p.2 (hdis p (by simp))]
    have hdis2 : ∀ q ∈ rest, q.1 ∉ (m ++ [(p.1, p.2, 0)]).map (fun (e : HEntry) => e.1) := by
      intro q hq hmem
      simp only [List.map_append, List.mem_append, List.map_cons, List.map_nil,
        List.mem_cons, List.not_mem_nil, or_false] at hmem
      rcases hmem with hmem | hmem
      · exact hdis q (by simp [hq]) hmem
      · exact hnd.1 (hmem ▸ List.mem_map_of_mem _ hq)
    rw [ih (m ++ [(p.1, p.2, 0)]) hdis2 hnd.2]
    simp

theorem foldl_upsertKw (kw : List (Document × ℚ)) :
    ∀ M : List HEntry, (kw.map Prod.fst).Nodup →
    (M.map (fun e => e.1)).Nodup →
    kw.foldl (fun m p => upsertKw m p.1 p.2) M =
      M.map (fun e => (e.1, e.2.1, (lookupDoc e.1 kw).getD e.2.2))
      ++ (kw.filter (fun p => ! hasEntry p.1 M)).map (fun p => (p.1, 0, p.2)) := by
  induction kw with
  | nil =>
    intro M _ _
    simp only [List.foldl_nil, lookupDoc, Option.getD_none, List.filter_nil,
      List.map_nil, List.append_nil]
    have he : (fun (e : HEntry) => (e.1, e.2.1, e.2.2)) = id := by
      funext e; rfl
    rw [he, List.map_id]
  | cons p rest ih =>
    intro M hk hM
    simp only [List.map_cons, List.nodup_cons] at hk
    simp only [List.foldl_cons]
    by_cases hmem : p.1 ∈ M.map (fun e => e.1)
    · rw [upsertKw_mem M p.1 p.2 hM hmem]
      have hkeys : ((M.map (fun e => if e.1 = p.1 then (e.1, e.2.1, p.2) else e)).map
          (fun e => e.1)) = M.map (fun e => e.1) := by
        rw [List.map_map]
        apply List.map_congr_left
        intro e _
        by_cases he : e.1 = p.1 <;> simp [he]
      rw [ih _ hk.2 (hkeys ▸ hM)]
      congr 1
      · rw [List.map_map]
        apply List.map_congr_left
        intro e _
        by_cases he : e.1 = p.1
        · simp [Function.comp, he, if_pos rfl, lookupDoc,
            lookupDoc_none p.1 rest hk.1]
        · simp [Function.comp, he, lookupDoc, Ne.symm he]
      · have hfe : ∀ q ∈ rest,
            (! hasEntry q.1 (M.map (fun e => if e.1 = p.1 then (e.1, e.2.1, p.2) else e)))
              = (! hasEntry q.1 M) := by
          intro q _
          have hq : hasEntry q.1 (M.map (fun e =>
              if e.1 = p.1 then (e.1, e.2.1, p.2) else e)) = hasEntry q.1 M := by
            rw [Bool.eq_iff_iff, hasEntry_iff, hasEntry_iff, hkeys]
          rw [hq]
        rw [List.filter_congr hfe, List.filter_cons]
        have hp : (! hasEntry p.1 M) = false := by
          simp [hasEntry_iff, hmem]
        rw [hp]
        simp
    · rw [upsertKw_not_mem M p.1 p.2 hmem]
      have hnd2 : ((M ++ [(p.1, 0, p.2)]).map (fun (e : HEntry) => e.1)).Nodup := by
        simp only [List.map_append, List.map_cons, List.map_nil]
        rw [List.nodup_append]
        refine ⟨hM, by simp, ?_⟩
        intro a ha hb
        simp only [List.mem_cons, List.not_mem_nil, or_false] at hb
        exact hmem (hb ▸ ha)
      rw [ih _ hk.2 hnd2]
      rw [List.map_append]
      have hsingle : (([((p.1 : Document), (0 : ℚ), p.2)]).map
          (fun e => (e.1, e.2.1, (lookupDoc e.1 rest).getD e.2.2))) = [(p.1, 0, p.2)] := by
        simp [lookupDoc_none p.1 rest hk.1]
      rw [hsingle]
      have hmap : M.map (fun e => (e.1, e.2.1, (lookupDoc e.1 rest).getD e.2.2)) =
          M.map (fun e => (e.1, e.2.1, (lookupDoc e.1 (p :: rest)).getD e.2.2)) := by
        apply List.map_congr_left
        intro e he
        have hne : p.1 ≠ e.1 := by
          intro hq
          exact hmem (hq ▸ List.mem_map_of_mem _ he)
        simp [lookupDoc, hne]
      rw [hmap]
      have hfilter : rest.filter (fun q => ! hasEntry q.1 (M ++ [(p.1, 0, p.2)])) =
          rest.filter (fun q => ! hasEntry q.1 M) := by
        apply List.filter_congr
        intro q hq
        have hqp : q.1 ≠ p.1 := by
          intro hqe
          exact hk.1 (hqe ▸ List.mem_map_of_mem _ hq)
        have hqe2 : hasEntry q.1 (M ++ [(p.1, 0, p.2)]) = hasEntry q.1 M := by
          rw [Bool.eq_iff_iff, hasEntry_iff, hasEntry_iff]
          simp [hqp]
        rw [hqe2]
      rw [hfilter, List.filter_cons]
      have hp0 : hasEntry p.1 M = false := by
        cases hcase : hasEntry p.1 M with
        | false => rfl
        | true => exact absurd ((hasEntry_iff p.1 M).mp hcase) hmem
      have hp : (! hasEntry p.1 M) = true := by rw [hp0]; rfl
      rw [hp]
      simp

theorem hasEntry_map_base (d : Document) (sem : List (Document × ℚ)) :
    hasEntry d (sem.map (fun p => (p.1, p.2, (0 : ℚ)))) = hasDoc d sem := by
  induction sem with
  | nil => rfl
  | cons p rest ih =>
    by_cases h : p.1 = d <;> simp [hasEntry, hasDoc, h, ih]

theorem combineEntries_eq (sem kw : List (Document × ℚ))
    (hs : (sem.map Prod.fst).Nodup) (hk : (kw.map Prod.fst).Nodup) :
    combineEntries sem kw =
      sem.map (fun p => (p.1, p.2, kwLook p.1 kw))
      ++ (kw.filter (fun p => ! hasDoc p.1 sem)).map (fun p => (p.1, 0, p.2)) := by
  unfold combineEntries
  rw [foldl_upsertSem sem [] (by simp) hs]
  simp only [List.nil_append]
  have hkeys : ((sem.map (fun p => (p.1, p.2, (0 : ℚ)))).map (fun e => e.1)) =
      sem.map Prod.fst := by
    rw [List.map_map]; rfl
  rw [foldl_upsertKw kw _ hk (by rw [hkeys]; exact hs)]
  congr 1
  · rw [List.map_map]
    apply List.map_congr_left
    intro p _
    rfl
  · congr 1
    apply List.filter_congr
    intro q _
    rw [hasEntry_map_base]

theorem hybridCombine_eq_spec (alpha : ℚ) (k : Nat)
    (sem kw : List (Document × ℚ)) (hs : (sem.map Prod.fst).Nodup)
    (hk : (kw.map Prod.fst).Nodup) :
    hybridCombine alpha k sem kw = hybridBlendSpec alpha k sem kw := by
  unfold hybridCombine hybridBlendSpec
  rw [combineEntries_eq sem kw hs hk, List.map_append, List.map_map, List.map_map]
  rfl

/-- C6: `hybrid_search` is exactly the composition of a `2k`-candidate
semantic search and a `2k`-candidate keyword search with the blend step;
for duplicate-free candidate lists the blend equals the spec-side
formulation (union keyed by document, missing score 0, score
`α·semantic + (1-α)·keyword`), its output is sorted descending by score
and has at most `k` entries; and at `α = 0.7` a document with semantic
0.9 / lexical 0 outranks one with semantic 0 / lexical 1 (0.63 over
0.3). -/
theorem hybridSearch_blend_spec (store : VectorStore) (q : String)
    (qe : Vec) (k : Nat) (alpha : ℚ) (f : Option Filter)
    (sem kw : List (Document × ℚ)) (hs : (sem.map Prod.fst).Nodup)
    (hk : (kw.map Prod.fst).Nodup) :
    hybridSearch store q qe k alpha f =
      (similaritySearch store qe (k * 2) f none).map (fun s =>
        hybridCombine alpha k s (keywordSearch store q (k * 2) f)) ∧
    hybridCombine alpha k sem kw = hybridBlendSpec alpha k sem kw ∧
    List.Sorted (descBy Prod.snd) (hybridCombine alpha k sem kw) ∧
    (hybridCombine alpha k sem kw).length ≤ k ∧
    hybridCombine (7/10) 2 [(docA, 9/10)] [(docB, 1)] =
      [(docA, 63/100), (docB, 3/10)] := by
  refine ⟨rfl, hybridCombine_eq_spec alpha k sem kw hs hk, ?_, ?_, ?_⟩
  · exact List.Pairwise.sublist (List.take_sublist k _)
      (List.sorted_insertionSort _ _)
  · exact List.length_take_le k _
  · norm_num [hybridCombine, combineEntries, upsertSem, upsertKw,
      List.insertionSort, List.orderedInsert, descBy, docA, docB]

/-- Witness for C6 at concrete duplicate-free candidate lists. -/
theorem hybridSearch_blend_spec_witness :
    hybridSearch store0 ("x") [1] 1 (7/10) none =
      (similaritySearch store0 [1] (1 * 2) none none).map (fun s =>
        hybridCombine (7/10) 1 s (keywordSearch store0 ("x") (1 * 2) none)) ∧
    hybridCombine (7/10) 1 [(docA, 9/10)] [(docB, 1)] =
      hybridBlendSpec (7/10) 1 [(docA, 9/10)] [(docB, 1)] ∧
    List.Sorted (descBy Prod.snd)
      (hybridCombine (7/10) 1 [(docA, 9/10)] [(docB, 1)]) ∧
    (hybridCombine (7/10) 1 [(docA, 9/10)] [(docB, 1)]).length ≤ 1 ∧
    hybridCombine (7/10) 2 [(docA, 9/10)] [(docB, 1)] =
      [(docA, 63/100), (docB, 3/10)] :=
  hybridSearch_blend_spec store0 ("x") [1] 1 (7/10) none
    [(docA, 9/10)] [(docB, 1)] (by decide) (by decide)

end BanglaLaw
